import Mathlib

/-!
Verification development for the drawio label-translation engine
(`translate_drawio.py`).  The Python element tree (`xml.etree.ElementTree`)
is shallowly embedded as a store of elements indexed by object identity;
attribute dictionaries are insertion-ordered association lists.  External
collaborators (the `translators` backends, `langdetect`, `zlib`/`base64`,
`html.unescape`, the XML parser) are parameters of the definitions, so every
theorem quantifies over their behaviour and witnesses instantiate them with
concrete executable functions.
-/

namespace Drawio

/-! ### Python string primitives.  Modelled structurally over `String.data`
(so they evaluate inside the kernel); `str.strip`/`str.lower` are modelled
at the ASCII level, which is exact for the language codes, attribute keys
and whitespace handling the program manipulates. -/

/-- The whitespace characters `str.strip()` removes. -/
def isPySpace (c : Char) : Bool :=
  c = ' ' ∨ c = '\t' ∨ c = '\n' ∨ c = '\r' ∨ c = '\x0b' ∨ c = '\x0c'

/-- Python `str.strip()`. -/
def pyStrip (s : String) : String :=
  String.mk (((s.data.dropWhile isPySpace).reverse.dropWhile isPySpace).reverse)

/-- Python `str.lstrip()`. -/
def pyLStrip (s : String) : String :=
  String.mk (s.data.dropWhile isPySpace)

/-- ASCII lowering of one character. -/
def charLower (c : Char) : Char :=
  if 'A' ≤ c ∧ c ≤ 'Z' then Char.ofNat (c.toNat + 32) else c

/-- Python `str.lower()` (ASCII model). -/
def pyLower (s : String) : String :=
  String.mk (s.data.map charLower)

/-- `"-" in key` / `'}' in tag`: substring containment of one character. -/
def hasChar (s : String) (c : Char) : Bool :=
  s.data.any (fun d => d == c)

/-- Python attribute dictionary: insertion-ordered key/value pairs. -/
abbrev AttrMap := List (String × String)

/-- `d.get(k)` on a Python dict. -/
def attrGet (m : AttrMap) (k : String) : Option String :=
  (m.find? (fun p => p.1 == k)).map (·.2)

/-- `d[k] = v` on a Python dict: updates the binding in place, or appends
    a new entry at the end. -/
def attrSet : AttrMap → String → String → AttrMap
  | [], k, v => [(k, v)]
  | x :: xs, k, v => if x.1 == k then (k, v) :: xs else x :: attrSet xs k v

/-- `del d[k]` (tolerant: no-op when the key is absent, used where the
    source guards deletion with `if k in d`). -/
def attrDel (m : AttrMap) (k : String) : AttrMap :=
  m.filter (fun p => !(p.1 == k))

/-- `k in d` on a Python dict. -/
def attrHas (m : AttrMap) (k : String) : Bool :=
  m.any (fun p => p.1 == k)

/-- An `xml.etree.ElementTree.Element`: tag, attribute dict, child list
    (children referenced by object identity). -/
structure Elem where
  tag : String
  attribs : AttrMap
  children : List Nat
deriving Repr, DecidableEq

/-- The live object graph of one page: elements keyed by identity, the
    `parent_map` dict built by `build_parent_map`, and a fresh-identity
    counter for newly constructed elements. -/
structure Store where
  elems : List (Nat × Elem)
  parentMap : List (Nat × Nat)
  fresh : Nat
deriving Repr, DecidableEq

def Store.getE (st : Store) (i : Nat) : Option Elem :=
  (st.elems.find? (fun p => p.1 == i)).map (·.2)

/-- In-place mutation of the element object `i` (which always exists). -/
def elemsUpd : List (Nat × Elem) → Nat → Elem → List (Nat × Elem)
  | [], _, _ => []
  | x :: xs, i, e => if x.1 == i then (i, e) :: xs else x :: elemsUpd xs i e

def Store.setE (st : Store) (i : Nat) (e : Elem) : Store :=
  { st with elems := elemsUpd st.elems i e }

/-- Construction of a fresh `ET.Element`. -/
def Store.alloc (st : Store) (e : Elem) : Nat × Store :=
  (st.fresh, { st with elems := st.elems ++ [(st.fresh, e)], fresh := st.fresh + 1 })

def Store.getParent (st : Store) (i : Nat) : Option Nat :=
  (st.parentMap.find? (fun p => p.1 == i)).map (·.2)

/-- Python-dict update (used for `parent_map`). -/
def parentUpd : List (Nat × Nat) → Nat → Nat → List (Nat × Nat)
  | [], c, p => [(c, p)]
  | x :: xs, c, p => if x.1 == c then (c, p) :: xs else x :: parentUpd xs c p

def Store.setParent (st : Store) (c p : Nat) : Store :=
  { st with parentMap := parentUpd st.parentMap c p }

/-- Attribute of an element of the store. -/
def Store.attr (st : Store) (i : Nat) (k : String) : Option String :=
  (st.getE i).bind (fun e => attrGet e.attribs k)

/-- `elem.get(k, "")`. -/
def Store.attrD (st : Store) (i : Nat) (k : String) : String :=
  (st.attr i k).getD ""

/-- `k in elem.attrib`. -/
def Store.attrHasKey (st : Store) (i : Nat) (k : String) : Bool :=
  ((st.getE i).map (fun e => attrHas e.attribs k)).getD false

/-- `elem.set(k, v)`. -/
def Store.setAttrOn (st : Store) (i : Nat) (k v : String) : Store :=
  match st.getE i with
  | some e => st.setE i { e with attribs := attrSet e.attribs k v }
  | none => st

/-- `_localname`: strip a `{namespace}` qualifier, splitting at the first
    closing brace exactly as `tag.split('}', 1)[-1]` does. -/
def dropThroughBrace : List Char → List Char
  | [] => []
  | c :: rest => if c = '}' then rest else dropThroughBrace rest

def localname (tag : String) : String :=
  if hasChar tag '}' then String.mk (dropThroughBrace tag.data) else tag

/-- `find_label_text`: first label-bearing attribute, preferring `value`
    over `label`, each accepted only when non-blank after stripping. -/
def find_label_text (e : Elem) : Option (String × String) :=
  match attrGet e.attribs "value" with
  | some v =>
    if pyStrip v ≠ "" then some ("value", v)
    else
      match attrGet e.attribs "label" with
      | some l => if pyStrip l ≠ "" then some ("label", l) else none
      | none => none
  | none =>
    match attrGet e.attribs "label" with
    | some l => if pyStrip l ≠ "" then some ("label", l) else none
    | none => none

/-- `decode_label_text`: HTML-entity-decode (the stdlib `html.unescape`
    collaborator is a parameter) and strip. -/
def decode_label_text (unesc : String → String) (raw : String) : String :=
  pyStrip (unesc raw)

/-! ### Page Codec (`is_compressed_diagram_text`, `decompress_diagram_text`,
`compress_diagram_text`).  The `base64`/`zlib`/UTF-8 stdlib primitives are
external collaborators, abstracted over a byte type `β`; `Option` models
the exceptions (`binascii.Error`, `zlib.error`, `UnicodeDecodeError`) the
source catches. -/

structure CodecPrims (β : Type) where
  b64decode : String → Option β
  inflateRaw : β → Option β
  inflateZlib : β → Option β
  utf8decode : β → Option String
  utf8encode : String → β
  deflateRaw : β → β
  b64encode : β → String

def startsWithLT (s : String) : Bool :=
  match s.data with
  | c :: _ => c == '<'
  | [] => false

def is_compressed_diagram_text (s : String) : Bool :=
  ¬ startsWithLT (pyLStrip s)

/-- `decompress_diagram_text`: base64-decode, try raw DEFLATE, on
    `zlib.error` retry with a zlib header; any failure (including a UTF-8
    decode error) is caught by the outer handler, which returns the
    original string unchanged. -/
def decompress_diagram_text (P : CodecPrims β) (s : String) : String :=
  let data := pyStrip s
  match P.b64decode data with
  | none => s
  | some b =>
    match P.inflateRaw b with
    | some xml =>
      match P.utf8decode xml with
      | some r => r
      | none => s
    | none =>
      match P.inflateZlib b with
      | some xml =>
        match P.utf8decode xml with
        | some r => r
        | none => s
      | none => s

/-- `compress_diagram_text`: UTF-8 encode, raw-deflate, base64-encode. -/
def compress_diagram_text (P : CodecPrims β) (xml : String) : String :=
  P.b64encode (P.deflateRaw (P.utf8encode xml))

/-! ### Translation Backend Chain (`Translator`).  The `translators`
package is the external collaborator: `attempt engine txt src tgt` returns
`none` when the backend raised.  `translate` additionally returns the list
of engines actually invoked, so "issues no backend call" is statable. -/

structure TransConfig where
  source_lang : String
  engine : String
  fallback_engines : List String

/-- The memoization cache `self._cache`, keyed by `(src ++ ":" ++ txt, tgt)`. -/
abbrev Cache := List ((String × String) × String)

def cacheGet (c : Cache) (k : String × String) : Option String :=
  (c.find? (fun p => p.1 == k)).map (·.2)

def cacheSet : Cache → (String × String) → String → Cache
  | [], k, v => [(k, v)]
  | x :: xs, k, v => if x.1 == k then (k, v) :: xs else x :: cacheSet xs k v

/-- `Translator._translate_with_engine`: accepts only a string result that
    is non-blank after stripping; exceptions yield `None`. -/
def translate_with_engine (attempt : String → String → String → String → Option String)
    (txt src tgt engine : String) : Option String :=
  match attempt engine txt src tgt with
  | some out => if pyStrip out ≠ "" then some out else none
  | none => none

/-- The fallback-engine loop of `Translator.translate`: returns the first
    accepted result together with the engines invoked. -/
def fallbackLoop (attempt : String → String → String → String → Option String)
    (txt src tgt : String) : List String → Option String × List String
  | [] => (none, [])
  | eng :: rest =>
    match translate_with_engine attempt txt src tgt eng with
    | some o =>
      if pyStrip o ≠ pyStrip txt then (some o, [eng])
      else
        let r := fallbackLoop attempt txt src tgt rest
        (r.1, eng :: r.2)
    | none =>
      let r := fallbackLoop attempt txt src tgt rest
      (r.1, eng :: r.2)

/-- `Translator.translate`: strip, resolve source language through the
    falsy-or chain, consult the cache, try the primary engine (accepting a
    result that is non-empty and, unless `src == tgt`, changed), then the
    fallback engines, finally degrade to the stripped input.  The third
    component lists the engines called. -/
def Translator.translate (attempt : String → String → String → String → Option String)
    (cfg : TransConfig) (cache : Cache) (text : String) (target_lang : String)
    (source_lang : Option String) : String × Cache × List String :=
  let txt := pyStrip text
  if txt = "" then (txt, cache, [])
  else
    let srcRaw :=
      match source_lang with
      | some s => if s ≠ "" then s else if cfg.source_lang ≠ "" then cfg.source_lang else "auto"
      | none => if cfg.source_lang ≠ "" then cfg.source_lang else "auto"
    let src := pyLower srcRaw
    let tgt := pyLower target_lang
    let key := (src ++ ":" ++ txt, tgt)
    match cacheGet cache key with
    | some v => (v, cache, [])
    | none =>
      match translate_with_engine attempt txt src tgt cfg.engine with
      | some out =>
        if src = tgt ∨ pyStrip out ≠ pyStrip txt then
          (out, cacheSet cache key out, [cfg.engine])
        else
          let r := fallbackLoop attempt txt src tgt cfg.fallback_engines
          match r.1 with
          | some o2 => (o2, cacheSet cache key o2, cfg.engine :: r.2)
          | none => (txt, cacheSet cache key txt, cfg.engine :: r.2)
      | none =>
        if src ≠ tgt then
          let r := fallbackLoop attempt txt src tgt cfg.fallback_engines
          match r.1 with
          | some o2 => (o2, cacheSet cache key o2, cfg.engine :: r.2)
          | none => (txt, cacheSet cache key txt, cfg.engine :: r.2)
        else (txt, cacheSet cache key txt, [cfg.engine])

/-! ### Language Classifier (`_strip_html_tags`,
`detect_primary_language_allowed`).  The `langdetect` collaborator is a
parameter `detect` returning guesses `(lang, prob)` (`none` models a
per-snippet exception); `langdetect_available` models the `try` around the
import.  Probabilities are modelled as rationals.  Because the Python code
iterates over the *set* `allowed` (whose order depends on interpreter hash
randomization), the set is passed as the list `order`: its iteration
order. -/

/-- Consume characters after `<c` up to the closing `>`; `some rest` when
    the regex `<[^>]+>` matches. -/
def tagClose : List Char → Option (List Char)
  | [] => none
  | '>' :: rest => some rest
  | _ :: rest => tagClose rest

/-- Match `<[^>]+>` right after an opening `<`: at least one non-`>`
    character, then `>`. -/
def tagMatch : List Char → Option (List Char)
  | [] => none
  | '>' :: _ => none
  | _ :: rest => tagClose rest

theorem tagClose_length : ∀ l r, tagClose l = some r → r.length < l.length := by
  intro l
  induction l with
  | nil => intro r h; simp [tagClose] at h
  | cons c rest ih =>
    intro r h
    by_cases hc : c = '>'
    · subst hc; simp [tagClose] at h; simp [← h, List.length_cons]
    · have : tagClose (c :: rest) = tagClose rest := by
        cases c <;> simp_all [tagClose]
      rw [this] at h
      have := ih r h
      simp [List.length_cons]; omega

theorem tagMatch_length : ∀ l r, tagMatch l = some r → r.length < l.length := by
  intro l r h
  match l with
  | [] => simp [tagMatch] at h
  | c :: rest =>
    by_cases hc : c = '>'
    · subst hc; simp [tagMatch] at h
    · have : tagMatch (c :: rest) = tagClose rest := by
        cases c <;> simp_all [tagMatch]
      rw [this] at h
      have := tagClose_length rest r h
      simp [List.length_cons]; omega

/-- `re.sub(r"<[^>]+>", " ", s)` on the character list: each leftmost,
    non-overlapping match is replaced by a single space. -/
def stripTagsList : List Char → List Char
  | [] => []
  | c :: rest =>
    if h : c = '<' then
      match hm : tagMatch rest with
      | some rem => ' ' :: stripTagsList rem
      | none => c :: stripTagsList rest
    else c :: stripTagsList rest
termination_by l => l.length
decreasing_by
  · simp [List.length_cons]
    exact Nat.lt_succ_of_lt (tagMatch_length rest rem hm)
  · simp [List.length_cons]
  · simp [List.length_cons]

/-- `_strip_html_tags`. -/
def strip_html_tags (s : String) : String :=
  String.mk (stripTagsList s.data)

/-- The regional-variant collapse of `normalize_code`. -/
def normalize_code (code : String) : String :=
  let c := pyLower code
  if c = "zh-cn" ∨ c = "zh-tw" ∨ c = "zh-hans" ∨ c = "zh-hant" then "zh"
  else if c = "pt-br" ∨ c = "pt-pt" then "pt"
  else c

/-- Python `max(..., key=...)` over guesses: the first element of maximal
    score wins ties. -/
def pymaxBy (l : List (String × ℚ)) : String × ℚ :=
  match l with
  | [] => ("", 0)
  | x :: xs => xs.foldl (fun best g => if best.2 < g.2 then g else best) x

/-- `scores[pred] += d` guarded by `if pred in scores`. -/
def bumpScore (scores : List (String × ℚ)) (k : String) (d : ℚ) : List (String × ℚ) :=
  if scores.any (fun p => p.1 == k) then
    scores.map (fun p => if p.1 == k then (p.1, p.2 + d) else p)
  else scores

/-- One iteration of the scoring loop: weight by capped snippet length,
    detect, take the top guess, normalize it, and accumulate. -/
def classifierStep (detect : String → Option (List (String × ℚ)))
    (acc : List (String × ℚ) × ℚ) (s : String) : List (String × ℚ) × ℚ :=
  let weight : ℚ := min (s.length : ℚ) 500
  match detect s with
  | none => acc
  | some [] => acc
  | some (g :: gs) =>
    let top := pymaxBy (g :: gs)
    let pred := normalize_code top.1
    (bumpScore acc.1 pred (top.2 * weight), acc.2 + weight)

/-- The shared fallback `default_lang.lower() if ... in allowed else
    next(iter(allowed))`: the set's first element in iteration order. -/
def allowedFallback (order : List String) (default_lang : String) : String :=
  if pyLower default_lang ∈ order then pyLower default_lang else order.headD ""

/-- The snippet-cleanup loop: drop empty texts, strip markup, decode
    entities, keep snippets of at least 3 characters. -/
def cleanSamples (unesc : String → String) (texts : List String) : List String :=
  texts.filterMap (fun t =>
    if t = "" then none
    else
      let clean := pyStrip (strip_html_tags (decode_label_text unesc t))
      if 3 ≤ clean.length then some clean else none)

/-- The scoring loop over (at most 200) samples, starting from a zero
    score per allowed code, in the set's iteration order. -/
def scoreSamples (detect : String → Option (List (String × ℚ)))
    (order : List String) (samples : List String) : List (String × ℚ) × ℚ :=
  (samples.take 200).foldl (classifierStep detect) (order.map (fun a => (a, (0 : ℚ))), 0)

/-- `detect_primary_language_allowed`.  `order` is the iteration order of
    the Python set `allowed` (lowercased, non-empty codes, deduplicated);
    an empty `order` is the empty set. -/
def detect_primary_language_allowed (detect : String → Option (List (String × ℚ)))
    (unesc : String → String) (langdetect_available : Bool)
    (order : List String) (texts : List String) (default_lang : String) : String :=
  if order = [] then pyLower default_lang
  else
    let samples := cleanSamples unesc texts
    if samples = [] then allowedFallback order default_lang
    else if langdetect_available then
      let result := scoreSamples detect order samples
      if result.1.all (fun v => v.2 ≤ 0) then allowedFallback order default_lang
      else (pymaxBy result.1).1
    else allowedFallback order default_lang

/-! ### Container Resolver (`get_inner_mxcell_of_wrapper`,
`set_base_label_and_clear_inner`, `ensure_userobject_wrapper`) and Label
Rewriter (`translate_and_apply_for_element`). -/

/-- `list.index(x)` (first occurrence; a well-formed call always finds it). -/
def pyIndex (a : Nat) : List Nat → Nat
  | [] => 0
  | x :: xs => if x = a then 0 else pyIndex a xs + 1

/-- `list.remove(x)`: drop the first occurrence. -/
def pyRemove (a : Nat) : List Nat → List Nat
  | [] => []
  | x :: xs => if x = a then xs else x :: pyRemove a xs

/-- `list.insert(i, x)` (clamping at the end like Python). -/
def listInsertAt (x : Nat) : Nat → List Nat → List Nat
  | 0, xs => x :: xs
  | _ + 1, [] => [x]
  | n + 1, y :: ys => y :: listInsertAt x n ys

/-- Replace the first occurrence of `a` by `b`. -/
def replaceFirst (a b : Nat) : List Nat → List Nat
  | [] => []
  | x :: xs => if x = a then b :: xs else x :: replaceFirst a b xs

/-- `get_inner_mxcell_of_wrapper`: the first `mxCell` child of a
    `UserObject`. -/
def get_inner_mxcell_of_wrapper (st : Store) (wid : Nat) : Option Nat :=
  match st.getE wid with
  | none => none
  | some w =>
    if localname w.tag ≠ "UserObject" then none
    else w.children.find? (fun c =>
      ((st.getE c).map (fun e => localname e.tag == "mxCell")).getD false)

/-- `set_base_label_and_clear_inner`: set the wrapper's visible `label`
    and delete `value`/`label` from the inner `mxCell` so it cannot
    override it. -/
def set_base_label_and_clear_inner (st : Store) (cid : Nat) (base_text : String) : Store :=
  let st1 := st.setAttrOn cid "label" base_text
  match st1.getE cid with
  | none => st1
  | some c =>
    if localname c.tag = "UserObject" then
      match get_inner_mxcell_of_wrapper st1 cid with
      | some iid =>
        match st1.getE iid with
        | some ie => st1.setE iid { ie with attribs := attrDel (attrDel ie.attribs "value") "label" }
        | none => st1
      | none => st1
    else st1

/-- The cell's visible text as computed by `ensure_userobject_wrapper`:
    `value if value.strip() else label`. -/
def cellVisibleText (cell : Elem) : String :=
  let value := (attrGet cell.attribs "value").getD ""
  let label := (attrGet cell.attribs "label").getD ""
  if pyStrip value ≠ "" then value else label

/-- The attribute dict of the freshly built wrapper: the cell's `id` (when
    truthy) and its visible text as `label` (when non-empty). -/
def wrapAttrs (cell : Elem) : AttrMap :=
  let w0 : AttrMap :=
    match attrGet cell.attribs "id" with
    | some oid => if oid ≠ "" then attrSet [] "id" oid else []
    | none => []
  if cellVisibleText cell ≠ "" then attrSet w0 "label" (cellVisibleText cell) else w0

/-- The stripped clone of a wrapped cell: keeps tag, children and all
    attributes except `id`/`value`/`label`. -/
def innerClone (cell : Elem) : Elem :=
  { tag := "mxCell"
    attribs := attrDel (attrDel (attrDel cell.attribs "id") "value") "label"
    children := cell.children }

/-- The freshly built wrapper element around `innerId`. -/
def wrapElem (cell : Elem) (innerId : Nat) : Elem :=
  { tag := "UserObject", attribs := wrapAttrs cell, children := [innerId] }

/-- `ensure_userobject_wrapper`: wrap a bare `mxCell` in a `UserObject`
    that takes over the id and the visible text; the original cell is
    replaced in its parent's child list, at the same position, by the
    wrapper holding the stripped clone.  (The source constructs the
    wrapper before checking `parent is None`; an unattached wrapper is
    unobservable, so the model checks the parent first.) -/
def ensure_userobject_wrapper (st : Store) (cellId : Nat) : Nat × Store :=
  match st.getE cellId with
  | none => (cellId, st)
  | some cell =>
    if localname cell.tag ≠ "mxCell" then (cellId, st)
    else
      match st.getParent cellId with
      | none => (cellId, st)
      | some pid =>
        match st.getE pid with
        | none => (cellId, st)
        | some pe =>
          if localname pe.tag = "UserObject" then (pid, st)
          else
            let a1 := st.alloc (innerClone cell)
            let innerId := a1.1
            let a2 := a1.2.alloc (wrapElem cell innerId)
            let wrapId := a2.1
            let idx := pyIndex cellId pe.children
            let pe' := { pe with children := listInsertAt wrapId idx (pyRemove cellId pe.children) }
            let st3 := a2.2.setE pid pe'
            let st4 := (st3.setParent innerId wrapId).setParent wrapId pid
            (wrapId, st4)

/-- The container-resolution preamble of `translate_and_apply_for_element`
    (its lines choosing between the element, its wrapping, and its
    `UserObject` parent). -/
def resolve_container (st : Store) (elemId : Nat) : Nat × Store :=
  match st.getE elemId with
  | none => (elemId, st)
  | some e =>
    if localname e.tag = "mxCell" then ensure_userobject_wrapper st elemId
    else if localname e.tag ≠ "UserObject" then
      match st.getParent elemId with
      | some pid =>
        match st.getE pid with
        | some pe => if localname pe.tag = "UserObject" then (pid, st) else (elemId, st)
        | none => (elemId, st)
      | none => (elemId, st)
    else (elemId, st)

/-- The repeated per-language key loop of the Label Rewriter: for each key
    of the underscore/hyphen pair, when the overwrite policy or absence
    allows it, the *guard* `if not("-" in key)` suppresses the actual
    write for hyphenated keys — but the counter is incremented in both
    cases, exactly as in the source. -/
def writeKeyPair (st : Store) (cid : Nat) (keys : List String) (val : String)
    (overwrite_existing : Bool) (written : Nat) : Store × Nat :=
  keys.foldl (fun acc key =>
    if overwrite_existing ∨ ¬ acc.1.attrHasKey cid key then
      (if ¬ hasChar key '-' then acc.1.setAttrOn cid key val else acc.1, acc.2 + 1)
    else acc) (st, written)

/-- External collaborators and module-level configuration consumed by the
    Label Rewriter: the backend `attempt`, `html.unescape`, the
    `Translator` configuration and the `WRITE_EN_KEYS` module global. -/
structure RewriteCtx where
  attempt : String → String → String → String → Option String
  unesc : String → String
  cfg : TransConfig
  write_en_keys : Bool

/-- One iteration of the final per-language loop of
    `translate_and_apply_for_element`: skip `en` and the primary language,
    translate, and write the underscore/hyphen key pair. -/
def langStep (ctx : RewriteCtx) (container : Nat) (original_text : String)
    (primary_lang : String) (overwrite_existing : Bool)
    (acc : Nat × Store × Cache) (lang : String) : Nat × Store × Cache :=
  if lang = "en" then acc
  else if lang = primary_lang then acc
  else
    let r := Translator.translate ctx.attempt ctx.cfg acc.2.2 original_text lang (some primary_lang)
    let sw := writeKeyPair acc.2.1 container ["label_" ++ lang, "label-" ++ lang]
      r.1 overwrite_existing acc.1
    (sw.2, sw.1, r.2.1)

/-- The base-label write of the Label Rewriter: set (and clear the inner
    cell) when overwriting is on or the stored label differs. -/
def baseWrite (st : Store) (container : Nat) (base_text : String)
    (overwrite_existing : Bool) : Store × Nat :=
  if overwrite_existing ∨ ¬ st.attrD container "label" = base_text then
    (set_base_label_and_clear_inner st container base_text, 1)
  else (st, 0)

/-- The optional `label_en`/`label-en` pair, written only when the
    `WRITE_EN_KEYS` module global is enabled. -/
def enKeysWrite (ctx : RewriteCtx) (b : Store × Nat) (container : Nat)
    (english_text : String) (overwrite_existing : Bool) : Store × Nat :=
  if ctx.write_en_keys then
    writeKeyPair b.1 container ["label_en", "label-en"] english_text overwrite_existing b.2
  else b

/-- Preservation of the original primary-language text under
    `label_<src>`/`label-<src>` when the primary language is not English. -/
def primaryKeyWrite (b : Store × Nat) (container : Nat)
    (original_text primary_lang : String) (overwrite_existing : Bool) : Store × Nat :=
  if ¬ primary_lang = "en" then
    writeKeyPair b.1 container ["label_" ++ primary_lang, "label-" ++ primary_lang]
      original_text overwrite_existing b.2
  else b

/-- The writing phase of `translate_and_apply_for_element` (everything
    after container resolution): base-label policy for English, optional
    `label_en`/`label-en` keys, preservation of the primary language, and
    the per-language translation loop. -/
def apply_writes (ctx : RewriteCtx) (st : Store) (cache : Cache) (container : Nat)
    (original_text : String) (target_langs : List String) (primary_lang : String)
    (overwrite_existing : Bool) : Nat × Store × Cache :=
  let has_en := "en" ∈ target_langs
  let head :=
    if has_en then
      let tr :=
        if primary_lang = "en" then (original_text, cache)
        else
          let r := Translator.translate ctx.attempt ctx.cfg cache original_text "en" (some primary_lang)
          (r.1, r.2.1)
      let b3 :=
        primaryKeyWrite
          (enKeysWrite ctx (baseWrite st container tr.1 overwrite_existing) container tr.1
            overwrite_existing)
          container original_text primary_lang overwrite_existing
      (b3.2, b3.1, tr.2)
    else
      let b1 := baseWrite st container original_text overwrite_existing
      (b1.2, b1.1, cache)
  target_langs.foldl (langStep ctx container original_text primary_lang overwrite_existing) head

/-- `translate_and_apply_for_element`: extract the visible text, resolve
    a `UserObject` container, and write the base label and per-language
    keys.  Returns the `written` counter plus the updated tree and
    translation cache.  (`english_in_langs` is passed by the callers but,
    as in the source, unused: the function recomputes it from `langs`.) -/
def translate_and_apply_for_element (ctx : RewriteCtx) (st : Store) (cache : Cache)
    (elemId : Nat) (langs : List String) (primary_lang : String)
    (english_in_langs : Bool) (overwrite_existing : Bool) : Nat × Store × Cache :=
  match (st.getE elemId).bind find_label_text with
  | none => (0, st, cache)
  | some pr =>
    let original_text := decode_label_text ctx.unesc pr.2
    if original_text = "" then (0, st, cache)
    else
      let rc := resolve_container st elemId
      apply_writes ctx rc.2 cache rc.1 original_text (langs.map pyLower)
        primary_lang overwrite_existing

/-! ### Document Processor (`build_parent_map`, `collect_diagram_texts`,
`process_diagram_xml` and the per-page dispatch of `process_drawio_file`
for text-content pages).  `ET.fromstring` / `ET.tostring` are external
collaborators; `fromstring = none` models `ET.ParseError`, which the
source does not catch, so it aborts the run (`Except.error`). -/

/-- `root.iter()`: document-order (preorder) traversal.  The fuel bounds
    the recursion depth; a parsed XML tree's depth is at most its node
    count, so callers pass `st.elems.length + 1`. -/
def iterFuel (st : Store) : Nat → Nat → List Nat
  | 0, _ => []
  | fuel + 1, i =>
    i :: (((st.getE i).map Elem.children).getD []).flatMap (iterFuel st fuel)

/-- `build_parent_map`: `{child: parent for parent in root.iter() for child
    in parent}`. -/
def build_parent_map (st : Store) (fuel rootId : Nat) : List (Nat × Nat) :=
  (iterFuel st fuel rootId).foldl (fun m p =>
    (((st.getE p).map Elem.children).getD []).foldl (fun m c => parentUpd m c p) m) []

/-- `collect_diagram_texts`: up to 100 decoded label texts in document
    order. -/
def collect_diagram_texts (unesc : String → String) (st : Store) (fuel rootId : Nat) :
    List String :=
  (iterFuel st fuel rootId).foldl (fun texts i =>
    if 100 ≤ texts.length then texts
    else
      match (st.getE i).bind find_label_text with
      | some pr => texts ++ [decode_label_text unesc pr.2]
      | none => texts) []

/-- All external collaborators of one `process_drawio_file` run. -/
structure PageDeps (β : Type) where
  P : CodecPrims β
  fromstring : String → Option (List (Nat × Elem) × Nat)
  tostring : Store → Nat → String
  attempt : String → String → String → String → Option String
  unesc : String → String
  detect : String → Option (List (String × ℚ))
  langdetect_available : Bool
  /-- Iteration order of the Python set built from the requested languages
      (lowercased, deduplicated) — hash-order dependent. -/
  allowedOrder : List String
  cfg : TransConfig
  write_en_keys : Bool
  source_lang : String

/-- `process_diagram_xml`: parse one page (`ET.fromstring`; a parse error
    *raises*), build the parent map, detect the primary language, apply
    the rewriter to a pre-computed snapshot of all elements, serialize. -/
def process_diagram_xml (D : PageDeps β) (cache : Cache) (languages : List String)
    (overwrite : Bool) (diagram_xml : String) : Except Unit (String × String × Cache) :=
  match D.fromstring diagram_xml with
  | none => Except.error ()
  | some parsed =>
    let maxId := parsed.1.foldl (fun m p => max m (p.1 + 1)) 0
    let st0 : Store := { elems := parsed.1, parentMap := [], fresh := maxId }
    let fuel := st0.elems.length + 1
    let st0 := { st0 with parentMap := build_parent_map st0 fuel parsed.2 }
    let texts := collect_diagram_texts D.unesc st0 fuel parsed.2
    let primary_lang := detect_primary_language_allowed D.detect D.unesc
      D.langdetect_available D.allowedOrder texts (pyLower D.source_lang)
    let english_in_langs := languages.any (fun l => pyLower l == "en")
    let ctx : RewriteCtx :=
      { attempt := D.attempt, unesc := D.unesc, cfg := D.cfg, write_en_keys := D.write_en_keys }
    let elems := iterFuel st0 fuel parsed.2
    let final := elems.foldl (fun (acc : Store × Cache) i =>
      let r := translate_and_apply_for_element ctx acc.1 acc.2 i languages primary_lang
        english_in_langs overwrite
      (r.2.1, r.2.2)) (st0, cache)
    Except.ok (D.tostring final.1 parsed.2, primary_lang, final.2)

/-- The per-`<diagram>` dispatch of `process_drawio_file` for a page whose
    content is text (lines handling stripped text, compressed framing and
    the `write_uncompressed` option).  An uncaught `ET.ParseError` inside
    `process_diagram_xml` propagates. -/
def process_page (D : PageDeps β) (cache : Cache) (languages : List String)
    (overwrite write_uncompressed : Bool) (rawText : Option String) :
    Except Unit (Option String × Cache) :=
  let text := pyStrip (rawText.getD "")
  if text = "" then Except.ok (rawText, cache)
  else if is_compressed_diagram_text text then
    match process_diagram_xml D cache languages overwrite (decompress_diagram_text D.P text) with
    | Except.error e => Except.error e
    | Except.ok r =>
      Except.ok (some (if write_uncompressed then r.1 else compress_diagram_text D.P r.1), r.2.2)
  else
    match process_diagram_xml D cache languages overwrite text with
    | Except.error e => Except.error e
    | Except.ok r => Except.ok (some r.1, r.2.2)

/-- The page loop of one `process_drawio_file` run over the text-content
    pages of a document: any exception aborts the whole run. -/
def process_pages (D : PageDeps β) (languages : List String)
    (overwrite write_uncompressed : Bool) (cache : Cache) :
    List (Option String) → Except Unit (List (Option String) × Cache)
  | [] => Except.ok ([], cache)
  | p :: rest =>
    match process_page D cache languages overwrite write_uncompressed p with
    | Except.error e => Except.error e
    | Except.ok r =>
      match process_pages D languages overwrite write_uncompressed r.2 rest with
      | Except.error e => Except.error e
      | Except.ok rr => Except.ok (r.1 :: rr.1, rr.2)

/-! ### Concrete instances used by counterexamples and witnesses. -/

/-- A deterministic backend: every engine translates `txt` to `"X" ++ tgt`. -/
def sampleAttempt : String → String → String → String → Option String :=
  fun _eng _txt _tgt tgt => some ("X" ++ tgt)

/-- The shipped configuration: primary engine `google`, no fallbacks,
    `SOURCE_LANG = "en"`. -/
def sampleCfg : TransConfig :=
  { source_lang := "en", engine := "google", fallback_engines := [] }

/-- Rewriter context under the repository's default configuration:
    `configuration.py` does not define `WRITE_EN_KEYS`, so the module
    default `True` applies. -/
def sampleCtxDefault : RewriteCtx :=
  { attempt := sampleAttempt, unesc := id, cfg := sampleCfg, write_en_keys := true }

/-- One `UserObject` container whose visible label is `"Bonjour"`. -/
def sampleUserObjectStore : Store :=
  { elems := [(0, { tag := "UserObject", attribs := [("label", "Bonjour")], children := [] })],
    parentMap := [], fresh := 1 }

/-- A text-bearing `mxCell` with no resolvable parent (the parent map has
    no entry for it). -/
def sampleOrphanStore : Store :=
  { elems := [(0, { tag := "mxCell", attribs := [("value", "Bonjour")], children := [] })],
    parentMap := [], fresh := 1 }

/-- A bare text-bearing cell with identity `n1` and a geometry child. -/
def sampleWrapCell : Elem :=
  { tag := "mxCell", attribs := [("id", "n1"), ("value", "Hi"), ("style", "rounded=0")],
    children := [3] }

/-- The parent of `sampleWrapCell` (children: the cell, then a sibling). -/
def sampleWrapRoot : Elem :=
  { tag := "root", attribs := [], children := [1, 2] }

/-- A small page for the wrapping invariant: root 0 holding cell 1 and a
    sibling 2; 3 is the geometry child of 1. -/
def sampleWrapStore : Store :=
  { elems := [(0, sampleWrapRoot), (1, sampleWrapCell),
              (2, { tag := "mxCell", attribs := [("id", "n2")], children := [] }),
              (3, { tag := "mxGeometry", attribs := [], children := [] })],
    parentMap := [(1, 0), (2, 0), (3, 1)], fresh := 4 }

/-- Codec primitives on which every decoding step fails — the behaviour of
    `base64`/`zlib` on a malformed framed payload such as `"!!!"`. -/
def failPrims : CodecPrims (List Nat) :=
  { b64decode := fun _ => none, inflateRaw := fun _ => none, inflateZlib := fun _ => none,
    utf8decode := fun _ => none, utf8encode := fun _ => [], deflateRaw := id,
    b64encode := fun _ => "" }

/-- A run's collaborators where the XML parser rejects its input — what
    `ET.fromstring` does to a string that does not start with `<`. -/
def failDeps : PageDeps (List Nat) :=
  { P := failPrims, fromstring := fun _ => none, tostring := fun _ _ => "",
    attempt := fun _ _ _ _ => none, unesc := id, detect := fun _ => none,
    langdetect_available := true, allowedOrder := ["en"], cfg := sampleCfg,
    write_en_keys := true, source_lang := "en" }

/-! ### General lemmas about the embedding. -/

theorem string_ext {a b : String} (h : a.data = b.data) : a = b := by
  cases a; cases b; cases h; rfl

theorem string_append_left_cancel {a b c : String} (h : a ++ b = a ++ c) : b = c := by
  apply string_ext
  have hd := congrArg String.data h
  rw [String.data_append, String.data_append] at hd
  exact List.append_cancel_left hd

theorem label_key_ne_label (lang : String) : ("label_" ++ lang) ≠ "label" := by
  intro h
  have hlen := congrArg String.length h
  rw [String.length_append] at hlen
  have h6 : "label_".length = 6 := rfl
  have h5 : "label".length = 5 := rfl
  omega

theorem label_key_ne_value_en (x : String) : ("label_" ++ x) ≠ "value_en" := by
  intro h
  have hd := congrArg String.data h
  rw [String.data_append] at hd
  have h1 : "label_".data = ['l', 'a', 'b', 'e', 'l', '_'] := rfl
  have h2 : "value_en".data = ['v', 'a', 'l', 'u', 'e', '_', 'e', 'n'] := rfl
  rw [h1, h2] at hd
  exact absurd (List.head_eq_of_cons_eq hd) (by decide)

theorem label_key_inj {a b : String} (h : ("label_" ++ a) = ("label_" ++ b)) : a = b :=
  string_append_left_cancel h

theorem headD_mem (l : List String) (h : l ≠ []) : l.headD "" ∈ l := by
  cases l with
  | nil => exact absurd rfl h
  | cons a as => simp [List.headD]

/-! Association-list lemmas. -/

theorem attrGet_attrSet_self (m : AttrMap) (k v : String) :
    attrGet (attrSet m k v) k = some v := by
  induction m with
  | nil => simp [attrSet, attrGet, List.find?]
  | cons x xs ih =>
    by_cases hx : x.1 == k
    · simp [attrSet, hx, attrGet, List.find?]
    · simp only [attrSet, hx, Bool.false_eq_true, if_false]
      simpa [attrGet, List.find?, hx] using ih

theorem attrGet_attrSet_ne (m : AttrMap) (k v k' : String) (h : ¬ k = k') :
    attrGet (attrSet m k v) k' = attrGet m k' := by
  induction m with
  | nil => simp [attrSet, attrGet, List.find?, show (k == k') = false by simp [h]]
  | cons x xs ih =>
    by_cases hx : x.1 == k
    · have hxk : x.1 = k := by simpa using hx
      have hx' : (x.1 == k') = false := by simp [hxk, h]
      simp [attrSet, hx, attrGet, List.find?, hx', show (k == k') = false by simp [h]]
    · by_cases hx' : x.1 == k'
      · simp [attrSet, hx, attrGet, List.find?, hx']
      · simp only [attrSet, hx, Bool.false_eq_true, if_false]
        simpa [attrGet, List.find?, hx'] using ih

theorem attrGet_attrDel_ne (m : AttrMap) (k k' : String) (h : ¬ k = k') :
    attrGet (attrDel m k) k' = attrGet m k' := by
  induction m with
  | nil => rfl
  | cons x xs ih =>
    by_cases hx : x.1 == k
    · have hxk : x.1 = k := by simpa using hx
      have hx' : (x.1 == k') = false := by simp [hxk, h]
      simp only [attrDel, List.filter_cons, hx, Bool.not_true, Bool.false_eq_true, if_false]
      rw [show xs.filter (fun p => !(p.1 == k)) = attrDel xs k from rfl, ih]
      simp [attrGet, List.find?, hx']
    · have hxb : (x.1 == k) = false := by simpa using hx
      by_cases hx' : x.1 == k'
      · simp [attrDel, List.filter_cons, hxb, attrGet, List.find?, hx']
      · simp only [attrDel, List.filter_cons, hxb, Bool.not_false, if_true]
        simp only [attrGet, List.find?, hx', Bool.false_eq_true, if_false]
        exact ih

/-! Store-level lemmas. -/

theorem getE_setParent (st : Store) (c p i : Nat) :
    (st.setParent c p).getE i = st.getE i := rfl

theorem attr_setParent (st : Store) (c p i : Nat) (k : String) :
    (st.setParent c p).attr i k = st.attr i k := rfl

theorem find?_elemsUpd_self (l : List (Nat × Elem)) (i : Nat) (e : Elem)
    (h : (l.find? (fun p => p.1 == i)).isSome) :
    (elemsUpd l i e).find? (fun p => p.1 == i) = some (i, e) := by
  induction l with
  | nil => simp [List.find?] at h
  | cons x xs ih =>
    by_cases hx : x.1 == i
    · simp [elemsUpd, hx, List.find?]
    · have hxf : (x.1 == i) = false := by simpa using hx
      simp only [elemsUpd, hxf, Bool.false_eq_true, if_false]
      simp only [List.find?, hxf] at h ⊢
      exact ih h

theorem find?_elemsUpd_ne (l : List (Nat × Elem)) (i j : Nat) (e : Elem) (h : ¬ j = i) :
    (elemsUpd l i e).find? (fun p => p.1 == j) = l.find? (fun p => p.1 == j) := by
  induction l with
  | nil => rfl
  | cons x xs ih =>
    by_cases hx : x.1 == i
    · have hxi : x.1 = i := by simpa using hx
      have h1 : (i == j) = false := by
        simp only [beq_eq_false_iff_ne, ne_eq]
        intro he
        exact h he.symm
      have h2 : (x.1 == j) = false := by
        rw [hxi]
        exact h1
      simp [elemsUpd, hx, List.find?, h1, h2]
    · have hxf : (x.1 == i) = false := by simpa using hx
      simp only [elemsUpd, hxf, Bool.false_eq_true, if_false]
      by_cases hxj : x.1 == j
      · simp [List.find?, hxj]
      · have hxjf : (x.1 == j) = false := by simpa using hxj
        simp only [List.find?, hxjf]
        exact ih

theorem getE_setE_self (st : Store) (i : Nat) (e : Elem)
    (h : (st.getE i).isSome) : (st.setE i e).getE i = some e := by
  unfold Store.getE at *
  unfold Store.setE
  rw [find?_elemsUpd_self]
  · rfl
  · cases hf : st.elems.find? (fun p => p.1 == i) with
    | none => rw [hf] at h; simp at h
    | some x => simp [hf]

theorem getE_setE_ne (st : Store) (i j : Nat) (e : Elem) (h : ¬ j = i) :
    (st.setE i e).getE j = st.getE j := by
  unfold Store.getE Store.setE
  rw [find?_elemsUpd_ne _ _ _ _ h]

theorem attr_setAttrOn_ne_key (st : Store) (i j : Nat) (k v k' : String) (h : ¬ k = k') :
    (st.setAttrOn i k v).attr j k' = st.attr j k' := by
  unfold Store.setAttrOn
  cases hg : st.getE i with
  | none => rfl
  | some e =>
    unfold Store.attr
    by_cases hj : j = i
    · subst hj
      rw [getE_setE_self _ _ _ (by simp [hg]), hg]
      simp [attrGet_attrSet_ne _ _ _ _ h]
    · rw [getE_setE_ne _ _ _ _ hj]

theorem attr_setAttrOn_self (st : Store) (i : Nat) (k v : String)
    (h : (st.getE i).isSome) : (st.setAttrOn i k v).attr i k = some v := by
  unfold Store.setAttrOn
  cases hg : st.getE i with
  | none => rw [hg] at h; simp at h
  | some e =>
    unfold Store.attr
    rw [getE_setE_self _ _ _ (by simp [hg])]
    simp [attrGet_attrSet_self]

theorem set_base_label_non_userobject (st : Store) (cid : Nat) (t : String) (e : Elem)
    (h : st.getE cid = some e) (htag : ¬ localname e.tag = "UserObject") :
    set_base_label_and_clear_inner st cid t = st.setAttrOn cid "label" t := by
  have h1 : (st.setAttrOn cid "label" t).getE cid =
      some { e with attribs := attrSet e.attribs "label" t } := by
    unfold Store.setAttrOn
    rw [h]
    exact getE_setE_self _ _ _ (by simp [h])
  simp only [set_base_label_and_clear_inner]
  rw [h1]
  simp [htag]

theorem writeKeyPair_cons (st : Store) (cid : Nat) (key : String) (rest : List String)
    (v : String) (ow : Bool) (w : Nat) :
    writeKeyPair st cid (key :: rest) v ow w =
      writeKeyPair
        (if ow ∨ ¬ st.attrHasKey cid key then
          (if ¬ hasChar key '-' then st.setAttrOn cid key v else st)
        else st)
        cid rest v ow
        (if ow ∨ ¬ st.attrHasKey cid key then w + 1 else w) := by
  unfold writeKeyPair
  rw [List.foldl_cons]
  congr 1
  split
  · rfl
  · rfl

theorem writeKeyPair_attr_preserved (keys : List String) (st : Store) (cid : Nat)
    (v : String) (ow : Bool) (w : Nat) (j : Nat) (k' : String)
    (hk : ∀ k ∈ keys, ¬ k = k') :
    (writeKeyPair st cid keys v ow w).1.attr j k' = st.attr j k' := by
  induction keys generalizing st w with
  | nil => rfl
  | cons key rest ih =>
    have hkey : ¬ key = k' := hk key (List.mem_cons_self key rest)
    have hrest : ∀ k ∈ rest, ¬ k = k' := fun k hm => hk k (List.mem_cons_of_mem _ hm)
    rw [writeKeyPair_cons]
    by_cases hc : ow = true ∨ ¬ st.attrHasKey cid key = true
    · rw [if_pos hc, if_pos hc, ih _ _ hrest]
      by_cases hc2 : ¬ hasChar key '-' = true
      · rw [if_pos hc2, attr_setAttrOn_ne_key _ _ _ _ _ _ hkey]
      · rw [if_neg hc2]
    · rw [if_neg hc, if_neg hc, ih _ _ hrest]

theorem writeKeyPair_written_le (keys : List String) (st : Store) (cid : Nat)
    (v : String) (ow : Bool) (w : Nat) :
    w ≤ (writeKeyPair st cid keys v ow w).2 := by
  induction keys generalizing st w with
  | nil => exact Nat.le_refl w
  | cons key rest ih =>
    rw [writeKeyPair_cons]
    by_cases hc : ow = true ∨ ¬ st.attrHasKey cid key = true
    · rw [if_pos hc, if_pos hc]
      exact Nat.le_trans (Nat.le_succ w) (ih _ _)
    · rw [if_neg hc, if_neg hc]
      exact ih _ _

theorem label_hyphen_key_ne_label (lang : String) : ("label-" ++ lang) ≠ "label" := by
  intro h
  have hlen := congrArg String.length h
  rw [String.length_append] at hlen
  have h6 : "label-".length = 6 := rfl
  have h5 : "label".length = 5 := rfl
  omega

theorem langLoop_attr_label (ctx : RewriteCtx) (container : Nat) (original_text : String)
    (primary_lang : String) (ow : Bool) (target_langs : List String)
    (acc : Nat × Store × Cache) (j : Nat) :
    ((target_langs.foldl (langStep ctx container original_text primary_lang ow) acc).2.1).attr
        j "label" = acc.2.1.attr j "label" := by
  induction target_langs generalizing acc with
  | nil => rfl
  | cons lang rest ih =>
    rw [List.foldl_cons, ih]
    simp only [langStep]
    split
    · rfl
    · split
      · rfl
      · exact writeKeyPair_attr_preserved _ _ _ _ _ _ _ _
          (by
            intro k hm
            simp only [List.mem_cons, List.not_mem_nil, or_false] at hm
            rcases hm with h1 | h2
            · rw [h1]; exact label_key_ne_label lang
            · rw [h2]; exact label_hyphen_key_ne_label lang)

theorem langLoop_written_le (ctx : RewriteCtx) (container : Nat) (original_text : String)
    (primary_lang : String) (ow : Bool) (target_langs : List String)
    (acc : Nat × Store × Cache) :
    acc.1 ≤ (target_langs.foldl (langStep ctx container original_text primary_lang ow) acc).1 := by
  induction target_langs generalizing acc with
  | nil => exact Nat.le_refl _
  | cons lang rest ih =>
    rw [List.foldl_cons]
    refine Nat.le_trans ?_ (ih _)
    simp only [langStep]
    split
    · exact Nat.le_refl _
    · split
      · exact Nat.le_refl _
      · exact writeKeyPair_written_le _ _ _ _ _ _

/-! ### Theorems for the claims. -/

/-- Claim C1, counterexample: with the repository's default configuration
    (`WRITE_EN_KEYS` defaults to `True`), processing a container labelled
    `"Bonjour"` on a page whose primary language is `fr` with requested
    languages `["en", "fr"]` *does* create a `label_en` attribute on the
    container, contradicting the claim that no language-coded key for
    `en` appears after apply. -/
theorem label_en_key_created_under_defaults :
    (translate_and_apply_for_element sampleCtxDefault sampleUserObjectStore [] 0
      ["en", "fr"] "fr" true true).2.1.attr 0 "label_en" = some "Xen" := by
  decide

/-- Claim C3, counterexample: for a text-bearing `mxCell` with no
    resolvable parent, the caller does *not* skip the node: the rewriter
    writes the base `label` and a `label_de` translation attribute
    directly onto the unwrapped cell (requested languages `["de"]`,
    primary language `fr`, overwrite enabled). -/
theorem orphan_cell_gets_attributes_written :
    (translate_and_apply_for_element sampleCtxDefault sampleOrphanStore [] 0
      ["de"] "fr" false true).2.1.attr 0 "label" = some "Bonjour" ∧
    (translate_and_apply_for_element sampleCtxDefault sampleOrphanStore [] 0
      ["de"] "fr" false true).2.1.attr 0 "label_de" = some "Xde" := by
  exact ⟨by decide, by decide⟩

/-- Claim C4 (code bug), evaluated at the failing input: one container
    labelled `"Bonjour"`, languages `["en", "fr"]`, primary `fr`,
    overwrite and `WRITE_EN_KEYS` at their defaults.  The function returns
    a count of 5, yet the container's final attribute dict shows exactly
    three attributes set or changed (`label`, `label_en`, `label_fr`): the
    hyphenated keys `label-en`/`label-fr` were counted but never written,
    contradicting the claim (and the function's own docstring). -/
theorem written_count_exceeds_actual_writes :
    (translate_and_apply_for_element sampleCtxDefault sampleUserObjectStore [] 0
      ["en", "fr"] "fr" true true).1 = 5 ∧
    (translate_and_apply_for_element sampleCtxDefault sampleUserObjectStore [] 0
      ["en", "fr"] "fr" true true).2.1.getE 0 =
      some { tag := "UserObject",
             attribs := [("label", "Xen"), ("label_en", "Xen"), ("label_fr", "Bonjour")],
             children := [] } := by
  exact ⟨by decide, by decide⟩

/-- Claim C5, counterexample: `translate(text, L, L)` with equal source
    and target is *not* a no-op — the primary backend is invoked (the call
    list is `["google"]`, not empty) and its result `"CHANGED"` is
    accepted and returned instead of the input `"Hello"`. -/
theorem translate_same_lang_calls_backend :
    (Translator.translate (fun _ _ _ _ => some "CHANGED") sampleCfg [] "Hello" "en"
      (some "en")).1 = "CHANGED" ∧
    (Translator.translate (fun _ _ _ _ => some "CHANGED") sampleCfg [] "Hello" "en"
      (some "en")).2.2 = ["google"] := by
  exact ⟨by decide, by decide⟩

/-- Claim C2, counterexample: for the malformed framed payload `"!!!"`,
    `decompress_diagram_text` does return the original string unchanged —
    but the document run does *not* recover: `process_diagram_xml`
    re-parses that non-XML string, `ET.fromstring` fails, and the
    uncaught error aborts the whole run instead of leaving the page
    unmodified and continuing. -/
theorem malformed_page_aborts_run :
    decompress_diagram_text failPrims "!!!" = "!!!" ∧
    process_pages failDeps ["en"] true false [] [some "!!!"] = Except.error () := by
  refine ⟨by decide, ?_⟩
  rfl

/-- Claim C8 (code bug), evaluated at the failing input: with no usable
    sample text, allowed languages `{fr, de}` and default `en` (not in the
    allowed set), the classifier returns `next(iter(allowed))` — the first
    element of the set's iteration order.  Under the iteration order
    `fr, de` it returns `fr`; under `de, fr` it returns `de`.  Python's
    per-process hash randomization makes either order possible, so two
    runs on the same input can disagree, and the fallback is not the
    lexicographically smallest element. -/
theorem classifier_fallback_depends_on_set_order :
    detect_primary_language_allowed (fun _ => none) id true ["fr", "de"] [] "en" = "fr" ∧
    detect_primary_language_allowed (fun _ => none) id true ["de", "fr"] [] "en" = "de" := by
  exact ⟨by decide, by decide⟩

/-- Claim C6: decoding the encoding of a fragment restores it exactly,
    given the inverse laws of the external primitives at the points the
    codec uses them: the base64 encoding carries no surrounding
    whitespace, base64-decode inverts base64-encode, raw inflate inverts
    raw deflate (so the zlib-header retry is never consulted), and UTF-8
    decode inverts UTF-8 encode. -/
theorem decompress_compress_roundtrip (P : CodecPrims β) (x : String)
    (h1 : pyStrip (compress_diagram_text P x) = compress_diagram_text P x)
    (h2 : P.b64decode (compress_diagram_text P x) = some (P.deflateRaw (P.utf8encode x)))
    (h3 : P.inflateRaw (P.deflateRaw (P.utf8encode x)) = some (P.utf8encode x))
    (h4 : P.utf8decode (P.utf8encode x) = some x) :
    decompress_diagram_text P (compress_diagram_text P x) = x := by
  simp only [decompress_diagram_text, h1, h2, h3, h4]

/-- Invertible stand-ins for the codec primitives, used to witness the
    round-trip theorem on a concrete fragment. -/
def rtPrims : CodecPrims (List Nat) :=
  { b64decode := fun s => some (s.data.map Char.toNat)
    inflateRaw := fun b => some b
    inflateZlib := fun b => some b
    utf8decode := fun b => some (String.mk (b.map Char.ofNat))
    utf8encode := fun s => s.data.map Char.toNat
    deflateRaw := fun b => b
    b64encode := fun b => String.mk (b.map Char.ofNat) }

/-- Witness for C6 at the fragment `"<mxGraphModel><root/></mxGraphModel>"`. -/
theorem decompress_compress_roundtrip_witness :
    pyStrip (compress_diagram_text rtPrims "<mxGraphModel><root/></mxGraphModel>") =
      compress_diagram_text rtPrims "<mxGraphModel><root/></mxGraphModel>" ∧
    decompress_diagram_text rtPrims
      (compress_diagram_text rtPrims "<mxGraphModel><root/></mxGraphModel>") =
      "<mxGraphModel><root/></mxGraphModel>" :=
  ⟨by decide, decompress_compress_roundtrip rtPrims "<mxGraphModel><root/></mxGraphModel>"
    (by decide) (by decide) (by decide) (by decide)⟩

/-! Classifier lemmas for C7. -/

theorem pymaxBy_mem (x : String × ℚ) (xs : List (String × ℚ)) :
    pymaxBy (x :: xs) ∈ x :: xs := by
  induction xs generalizing x with
  | nil => simp [pymaxBy]
  | cons y ys ih =>
    have e : pymaxBy (x :: y :: ys) = pymaxBy ((if x.2 < y.2 then y else x) :: ys) := by
      simp [pymaxBy]
    rw [e]
    have h := ih (if x.2 < y.2 then y else x)
    rcases List.mem_cons.mp h with h1 | h2
    · rw [h1]
      split
      · simp
      · simp
    · simp [List.mem_cons]
      right; right; exact h2

theorem bumpScore_map_fst (scores : List (String × ℚ)) (k : String) (d : ℚ) :
    (bumpScore scores k d).map Prod.fst = scores.map Prod.fst := by
  unfold bumpScore
  split
  · rw [List.map_map]
    apply List.map_congr_left
    intro p _
    by_cases h : p.1 == k <;> simp [Function.comp, h]
  · rfl

theorem classifierStep_map_fst (detect : String → Option (List (String × ℚ)))
    (acc : List (String × ℚ) × ℚ) (s : String) :
    (classifierStep detect acc s).1.map Prod.fst = acc.1.map Prod.fst := by
  unfold classifierStep
  cases detect s with
  | none => rfl
  | some gs =>
    cases gs with
    | nil => rfl
    | cons g tl => simpa using bumpScore_map_fst acc.1 _ _

theorem foldl_classifierStep_map_fst (detect : String → Option (List (String × ℚ)))
    (samples : List String) (acc : List (String × ℚ) × ℚ) :
    (samples.foldl (classifierStep detect) acc).1.map Prod.fst = acc.1.map Prod.fst := by
  induction samples generalizing acc with
  | nil => rfl
  | cons s rest ih => rw [List.foldl_cons, ih, classifierStep_map_fst]

theorem allowedFallback_mem (order : List String) (d : String) (h : order ≠ []) :
    allowedFallback order d ∈ order := by
  unfold allowedFallback
  split
  · assumption
  · exact headD_mem order h

/-- Claim C7: for a non-empty allowed set, the classifier's result is
    always a member of it — whatever the detector, the entity decoder,
    the availability of `langdetect`, the samples and the default code.
    (`order` is the allowed set in its iteration order.) -/
theorem classify_mem_allowed (detect : String → Option (List (String × ℚ)))
    (unesc : String → String) (avail : Bool) (order : List String)
    (texts : List String) (default_lang : String) (h : order ≠ []) :
    detect_primary_language_allowed detect unesc avail order texts default_lang ∈ order := by
  simp only [detect_primary_language_allowed]
  rw [if_neg h]
  split
  · exact allowedFallback_mem order default_lang h
  · split
    · split
      · exact allowedFallback_mem order default_lang h
      · have horder : (scoreSamples detect order (cleanSamples unesc texts)).1.map Prod.fst
            = order := by
          unfold scoreSamples
          rw [foldl_classifierStep_map_fst, List.map_map]
          exact List.map_id order
        cases hsc : (scoreSamples detect order (cleanSamples unesc texts)).1 with
        | nil =>
          rw [hsc] at horder
          exact absurd horder.symm h
        | cons a as =>
          rw [hsc] at horder
          rw [← horder]
          exact List.mem_map_of_mem Prod.fst (pymaxBy_mem a as)
    · exact allowedFallback_mem order default_lang h

/-- Witness for C7: allowed set `{en, fr}` (iterated `en, fr`), one French
    sample, a detector voting `fr` with probability 1. -/
theorem classify_mem_allowed_witness :
    (["en", "fr"] : List String) ≠ [] ∧
    detect_primary_language_allowed (fun _ => some [("fr", 1)]) id true ["en", "fr"]
      ["Bonjour le monde"] "en" ∈ ["en", "fr"] :=
  ⟨by decide, classify_mem_allowed (fun _ => some [("fr", 1)]) id true ["en", "fr"]
    ["Bonjour le monde"] "en" (by decide)⟩

/-- Claim C5 amended: when source and target coincide (both non-empty,
    uncached, non-blank text), `translate` still issues exactly one
    backend call — to the primary engine, never to fallbacks — and
    accepts any non-blank result of it, even one unchanged or different
    from the input; only when the primary fails does it return the
    stripped input. -/
theorem translate_same_lang_one_primary_call
    (attempt : String → String → String → String → Option String)
    (cfg : TransConfig) (cache : Cache) (text L : String)
    (hL : L ≠ "") (htxt : pyStrip text ≠ "")
    (hmiss : cacheGet cache (pyLower L ++ ":" ++ pyStrip text, pyLower L) = none) :
    (Translator.translate attempt cfg cache text L (some L)).2.2 = [cfg.engine] ∧
    (Translator.translate attempt cfg cache text L (some L)).1 =
      (translate_with_engine attempt (pyStrip text) (pyLower L) (pyLower L) cfg.engine).getD
        (pyStrip text) := by
  cases htw : translate_with_engine attempt (pyStrip text) (pyLower L) (pyLower L) cfg.engine with
  | some out =>
    refine ⟨?_, ?_⟩ <;> simp [Translator.translate, htxt, hL, hmiss, htw]
  | none =>
    refine ⟨?_, ?_⟩ <;> simp [Translator.translate, htxt, hL, hmiss, htw]

/-- Witness for C5's amended theorem: target `en`, text `"Hi"`, empty
    cache, a primary backend answering `"Salut"`. -/
theorem translate_same_lang_one_primary_call_witness :
    ("en" : String) ≠ "" ∧ pyStrip "Hi" ≠ "" ∧
    cacheGet [] (pyLower "en" ++ ":" ++ pyStrip "Hi", pyLower "en") = none ∧
    ((Translator.translate (fun _ _ _ _ => some "Salut") sampleCfg [] "Hi" "en"
        (some "en")).2.2 = [sampleCfg.engine] ∧
      (Translator.translate (fun _ _ _ _ => some "Salut") sampleCfg [] "Hi" "en"
        (some "en")).1 =
        (translate_with_engine (fun _ _ _ _ => some "Salut") (pyStrip "Hi") (pyLower "en")
          (pyLower "en") sampleCfg.engine).getD (pyStrip "Hi")) :=
  ⟨by decide, by decide, by decide,
    translate_same_lang_one_primary_call (fun _ _ _ _ => some "Salut") sampleCfg [] "Hi" "en"
      (by decide) (by decide) (by decide)⟩

/-- Claim C2 amended: for a malformed framed page (already stripped,
    non-empty, not inline XML; base64 or both decompressions fail),
    `decompress_diagram_text` returns the original string unchanged and
    raises nothing — but the run does **not** recover: the caller feeds
    the returned non-XML string straight to `ET.fromstring`, whose parse
    error propagates out of the page loop and aborts the document run
    (only `main`'s per-file handler contains it). -/
theorem malformed_framed_page_aborts (D : PageDeps β) (cache : Cache)
    (languages : List String) (ow wu : Bool) (s : String)
    (hts : pyStrip s = s) (hne : ¬ s = "")
    (hframed : is_compressed_diagram_text s = true)
    (hmal : D.P.b64decode s = none ∨
      ∃ b, D.P.b64decode s = some b ∧ D.P.inflateRaw b = none ∧ D.P.inflateZlib b = none)
    (hparse : D.fromstring s = none) :
    decompress_diagram_text D.P s = s ∧
    process_page D cache languages ow wu (some s) = Except.error () := by
  have hdec : decompress_diagram_text D.P s = s := by
    simp only [decompress_diagram_text, hts]
    rcases hmal with hb | ⟨b, hb, hr, hz⟩
    · rw [hb]
    · simp only [hb, hr, hz]
  refine ⟨hdec, ?_⟩
  simp [process_page, hts, hne, hframed, hdec, process_diagram_xml, hparse]

/-- Witness for C2's amended theorem at the payload `"%%%"` with the
    failing collaborators. -/
theorem malformed_framed_page_aborts_witness :
    pyStrip "%%%" = "%%%" ∧ ¬ ("%%%" : String) = "" ∧
    is_compressed_diagram_text "%%%" = true ∧
    failDeps.P.b64decode "%%%" = none ∧
    failDeps.fromstring "%%%" = none ∧
    (decompress_diagram_text failDeps.P "%%%" = "%%%" ∧
      process_page failDeps [] ["en"] true false (some "%%%") = Except.error ()) :=
  ⟨by decide, by decide, by decide, by decide, by decide,
    malformed_framed_page_aborts failDeps [] ["en"] true false "%%%"
      (by decide) (by decide) (by decide) (Or.inl (by decide)) (by decide)⟩

/-- Claim C3 amended: for a text-bearing `mxCell` with no resolvable
    parent, container resolution does fail silently — the cell is returned
    as its own container and the tree is not restructured — but the caller
    does **not** skip the node: with the overwrite policy enabled it
    writes the base `label` (the decoded text) directly onto the unwrapped
    cell, and the returned count is at least 1.  (Shown here with `en` not
    requested; the counterexample also shows language keys written.) -/
theorem orphan_resolution_silent_caller_writes (ctx : RewriteCtx) (st : Store)
    (cache : Cache) (elemId : Nat) (cell : Elem) (pr : String × String)
    (langs : List String) (primary_lang : String) (ei : Bool)
    (hcell : st.getE elemId = some cell)
    (htag : localname cell.tag = "mxCell")
    (hpar : st.getParent elemId = none)
    (hfind : find_label_text cell = some pr)
    (horig : ¬ decode_label_text ctx.unesc pr.2 = "")
    (hen : ¬ "en" ∈ langs.map pyLower) :
    resolve_container st elemId = (elemId, st) ∧
    (translate_and_apply_for_element ctx st cache elemId langs primary_lang ei true).2.1.attr
        elemId "label" = some (decode_label_text ctx.unesc pr.2) ∧
    1 ≤ (translate_and_apply_for_element ctx st cache elemId langs primary_lang ei true).1 := by
  have hres : resolve_container st elemId = (elemId, st) := by
    simp [resolve_container, ensure_userobject_wrapper, hcell, htag, hpar]
  have happ : translate_and_apply_for_element ctx st cache elemId langs primary_lang ei true
      = apply_writes ctx st cache elemId (decode_label_text ctx.unesc pr.2)
        (langs.map pyLower) primary_lang true := by
    simp only [translate_and_apply_for_element, hcell, Option.some_bind, hfind]
    rw [if_neg horig, hres]
  refine ⟨hres, ?_, ?_⟩
  · rw [happ]
    simp only [apply_writes]
    rw [langLoop_attr_label]
    rw [if_neg hen]
    simp only [baseWrite, true_or, ite_true]
    rw [set_base_label_non_userobject st elemId _ cell hcell (by rw [htag]; decide)]
    exact attr_setAttrOn_self _ _ _ _ (by simp [hcell])
  · rw [happ]
    simp only [apply_writes]
    refine Nat.le_trans ?_ (langLoop_written_le _ _ _ _ _ _ _)
    rw [if_neg hen]
    simp only [baseWrite, true_or, ite_true]
    exact Nat.le_refl 1

/-- Witness for C3's amended theorem: the orphan cell of the
    counterexample, languages `["de"]`, primary `fr`. -/
theorem orphan_resolution_silent_caller_writes_witness :
    sampleOrphanStore.getE 0 =
      some { tag := "mxCell", attribs := [("value", "Bonjour")], children := [] } ∧
    localname "mxCell" = "mxCell" ∧
    sampleOrphanStore.getParent 0 = none ∧
    find_label_text { tag := "mxCell", attribs := [("value", "Bonjour")], children := [] } =
      some ("value", "Bonjour") ∧
    ¬ decode_label_text id "Bonjour" = "" ∧
    ¬ "en" ∈ (["de"].map pyLower) ∧
    (resolve_container sampleOrphanStore 0 = (0, sampleOrphanStore) ∧
      (translate_and_apply_for_element sampleCtxDefault sampleOrphanStore [] 0
          ["de"] "fr" false true).2.1.attr 0 "label" = some (decode_label_text id "Bonjour") ∧
      1 ≤ (translate_and_apply_for_element sampleCtxDefault sampleOrphanStore [] 0
          ["de"] "fr" false true).1) :=
  ⟨by decide, by decide, by decide, by decide, by decide, by decide,
    orphan_resolution_silent_caller_writes sampleCtxDefault sampleOrphanStore [] 0
      { tag := "mxCell", attribs := [("value", "Bonjour")], children := [] }
      ("value", "Bonjour") ["de"] "fr" false
      (by decide) (by decide) (by decide) (by decide) (by decide) (by decide)⟩

/-! Lemmas about allocation and child-list surgery, for the wrapping
invariant. -/

theorem getE_lt_fresh (st : Store) (i : Nat)
    (hfresh : st.elems.all (fun p => p.1 < st.fresh) = true)
    (h : (st.getE i).isSome) : i < st.fresh := by
  unfold Store.getE at h
  cases hf : st.elems.find? (fun p => p.1 == i) with
  | none => rw [hf] at h; simp at h
  | some q =>
    have hq := List.mem_of_find?_eq_some hf
    have hlt := List.all_eq_true.mp hfresh q hq
    have heq : q.1 = i := by simpa using List.find?_some hf
    simp only [decide_eq_true_eq] at hlt
    omega

theorem find?_eq_none_of_all_lt (l : List (Nat × Elem)) (n : Nat)
    (hall : l.all (fun p => p.1 < n) = true) :
    l.find? (fun p => p.1 == n) = none := by
  rw [List.find?_eq_none]
  intro x hx
  have := List.all_eq_true.mp hall x hx
  simp only [decide_eq_true_eq] at this
  simp only [beq_eq_false_iff_ne, ne_eq, beq_iff_eq]
  omega

theorem getE_alloc_top (st : Store) (e : Elem)
    (hfresh : st.elems.all (fun p => p.1 < st.fresh) = true) :
    (st.alloc e).2.getE st.fresh = some e := by
  unfold Store.alloc Store.getE
  rw [List.find?_append, find?_eq_none_of_all_lt _ _ hfresh]
  simp [List.find?]

theorem getE_alloc_old (st : Store) (e : Elem) (i : Nat) (h : i < st.fresh) :
    (st.alloc e).2.getE i = st.getE i := by
  unfold Store.alloc Store.getE
  rw [List.find?_append]
  have hnone : ([(st.fresh, e)].find? (fun p => p.1 == i)) = none := by
    simp only [List.find?]
    have : (st.fresh == i) = false := by
      simp only [beq_eq_false_iff_ne, ne_eq]
      omega
    rw [this]
  rw [hnone]
  cases st.elems.find? (fun p => p.1 == i) <;> rfl

theorem alloc_all_lt (st : Store) (e : Elem)
    (hfresh : st.elems.all (fun p => p.1 < st.fresh) = true) :
    (st.alloc e).2.elems.all (fun p => p.1 < (st.alloc e).2.fresh) = true := by
  unfold Store.alloc
  simp only [List.all_append, Bool.and_eq_true, List.all_cons, List.all_nil, Bool.and_true]
  constructor
  · rw [List.all_eq_true]
    intro x hx
    have := List.all_eq_true.mp hfresh x hx
    simp only [decide_eq_true_eq] at this ⊢
    omega
  · simp

theorem insert_remove_replaceFirst (a b : Nat) (l : List Nat) (h : a ∈ l) :
    listInsertAt b (pyIndex a l) (pyRemove a l) = replaceFirst a b l := by
  induction l with
  | nil => cases h
  | cons x xs ih =>
    by_cases hx : x = a
    · simp [pyIndex, pyRemove, replaceFirst, hx, listInsertAt]
    · have hmem : a ∈ xs := by
        rcases List.mem_cons.mp h with h1 | h2
        · exact absurd h1.symm hx
        · exact h2
      simp [pyIndex, pyRemove, replaceFirst, hx, listInsertAt, ih hmem]

theorem wrapAttrs_id (cell : Elem) (oid : String)
    (hid : attrGet cell.attribs "id" = some oid) (hoid : ¬ oid = "") :
    attrGet (wrapAttrs cell) "id" = some oid := by
  unfold wrapAttrs
  rw [hid]
  simp only [ne_eq, hoid, not_false_eq_true, if_true]
  split
  · rw [attrGet_attrSet_ne _ _ _ _ (by decide)]
    exact attrGet_attrSet_self [] "id" oid
  · exact attrGet_attrSet_self [] "id" oid

theorem wrapAttrs_label (cell : Elem) (oid : String)
    (hid : attrGet cell.attribs "id" = some oid) (hoid : ¬ oid = "") :
    (attrGet (wrapAttrs cell) "label").getD "" = cellVisibleText cell := by
  unfold wrapAttrs
  rw [hid]
  simp only [ne_eq, hoid, not_false_eq_true, if_true]
  split
  · rw [attrGet_attrSet_self]
    rfl
  · rename_i hvis
    rw [attrGet_attrSet_ne _ _ _ _ (by decide)]
    have : cellVisibleText cell = "" := by
      by_contra hc
      exact hvis hc
    rw [this]
    rfl

/-- Claim C9 (wrapping invariant): wrapping a bare text-bearing cell that
    carries a non-empty identity key moves that key onto the returned
    `UserObject`; the wrapper's `label` is the cell's former visible text
    (preferring `value` over `label`); the wrapper replaces the cell at
    its former (first-occurrence) position in the parent's child list; and
    the inner clone keeps the cell's children and remaining attributes but
    none of `id`/`value`/`label`.  `hfresh` states the well-formedness of
    the identity supply. -/
theorem wrap_bare_cell_invariant (st : Store) (cellId : Nat) (cell : Elem) (pid : Nat)
    (pe : Elem) (oid : String)
    (hfresh : st.elems.all (fun p => p.1 < st.fresh) = true)
    (hcell : st.getE cellId = some cell)
    (htag : localname cell.tag = "mxCell")
    (hpar : st.getParent cellId = some pid)
    (hpe : st.getE pid = some pe)
    (hpetag : ¬ localname pe.tag = "UserObject")
    (hid : attrGet cell.attribs "id" = some oid)
    (hoid : ¬ oid = "")
    (hmem : cellId ∈ pe.children) :
    (ensure_userobject_wrapper st cellId).1 = st.fresh + 1 ∧
    (ensure_userobject_wrapper st cellId).2.getE (st.fresh + 1) =
      some (wrapElem cell st.fresh) ∧
    attrGet (wrapAttrs cell) "id" = some oid ∧
    (attrGet (wrapAttrs cell) "label").getD "" = cellVisibleText cell ∧
    (ensure_userobject_wrapper st cellId).2.getE st.fresh = some (innerClone cell) ∧
    (innerClone cell).attribs = attrDel (attrDel (attrDel cell.attribs "id") "value") "label" ∧
    (innerClone cell).children = cell.children ∧
    (ensure_userobject_wrapper st cellId).2.getE pid =
      some { pe with children := replaceFirst cellId (st.fresh + 1) pe.children } := by
  have hpid_lt : pid < st.fresh := getE_lt_fresh st pid hfresh (by simp [hpe])
  have hform : ensure_userobject_wrapper st cellId =
      (st.fresh + 1,
        ((((st.alloc (innerClone cell)).2.alloc (wrapElem cell st.fresh)).2.setE pid
            { pe with children := listInsertAt (st.fresh + 1) (pyIndex cellId pe.children) (pyRemove cellId pe.children) }).setParent
            st.fresh (st.fresh + 1)).setParent (st.fresh + 1) pid) := by
    simp only [ensure_userobject_wrapper, hcell, hpar, hpe]
    rw [if_neg (by rw [htag]; simp), if_neg hpetag]
    rfl
  have h1 : (st.alloc (innerClone cell)).2.elems.all
      (fun p => p.1 < (st.alloc (innerClone cell)).2.fresh) = true := alloc_all_lt st _ hfresh
  rw [hform]
  refine ⟨rfl, ?_, wrapAttrs_id cell oid hid hoid, wrapAttrs_label cell oid hid hoid, ?_,
    rfl, rfl, ?_⟩
  · rw [getE_setParent, getE_setParent, getE_setE_ne _ _ _ _ (by omega)]
    exact getE_alloc_top _ _ h1
  · rw [getE_setParent, getE_setParent, getE_setE_ne _ _ _ _ (by omega)]
    have e2 : ((st.alloc (innerClone cell)).2.alloc (wrapElem cell st.fresh)).2.getE st.fresh =
        (st.alloc (innerClone cell)).2.getE st.fresh := by
      apply getE_alloc_old
      simp [Store.alloc]
    rw [e2]
    exact getE_alloc_top st _ hfresh
  · rw [getE_setParent, getE_setParent, insert_remove_replaceFirst _ _ _ hmem]
    apply getE_setE_self
    have e1 : ((st.alloc (innerClone cell)).2.alloc (wrapElem cell st.fresh)).2.getE pid =
        (st.alloc (innerClone cell)).2.getE pid := by
      apply getE_alloc_old
      simp only [Store.alloc]
      omega
    rw [e1, getE_alloc_old st _ pid hpid_lt, hpe]
    rfl

/-- Witness for C9 on a concrete page: a bare cell `id="n1"`,
    `value="Hi"`, with a geometry child and a sibling. -/
theorem wrap_bare_cell_invariant_witness :
    sampleWrapStore.elems.all (fun p => p.1 < sampleWrapStore.fresh) = true ∧
    sampleWrapStore.getE 1 = some sampleWrapCell ∧
    localname sampleWrapCell.tag = "mxCell" ∧
    sampleWrapStore.getParent 1 = some 0 ∧
    sampleWrapStore.getE 0 = some sampleWrapRoot ∧
    ¬ localname sampleWrapRoot.tag = "UserObject" ∧
    attrGet sampleWrapCell.attribs "id" = some "n1" ∧
    ¬ ("n1" : String) = "" ∧
    (1 : Nat) ∈ sampleWrapRoot.children ∧
    ((ensure_userobject_wrapper sampleWrapStore 1).1 = sampleWrapStore.fresh + 1 ∧
      (ensure_userobject_wrapper sampleWrapStore 1).2.getE (sampleWrapStore.fresh + 1) =
        some (wrapElem sampleWrapCell sampleWrapStore.fresh) ∧
      attrGet (wrapAttrs sampleWrapCell) "id" = some "n1" ∧
      (attrGet (wrapAttrs sampleWrapCell) "label").getD "" = cellVisibleText sampleWrapCell ∧
      (ensure_userobject_wrapper sampleWrapStore 1).2.getE sampleWrapStore.fresh =
        some (innerClone sampleWrapCell) ∧
      (innerClone sampleWrapCell).attribs =
        attrDel (attrDel (attrDel sampleWrapCell.attribs "id") "value") "label" ∧
      (innerClone sampleWrapCell).children = sampleWrapCell.children ∧
      (ensure_userobject_wrapper sampleWrapStore 1).2.getE 0 =
        some { sampleWrapRoot with
               children := replaceFirst 1 (sampleWrapStore.fresh + 1) sampleWrapRoot.children }) :=
  ⟨by decide, by decide, by decide, by decide, by decide, by decide, by decide, by decide,
    by decide,
    wrap_bare_cell_invariant sampleWrapStore 1 sampleWrapCell 0 sampleWrapRoot "n1"
      (by decide) (by decide) (by decide) (by decide) (by decide) (by decide) (by decide)
      (by decide) (by decide)⟩

/-! Key-predicate preservation: a predicate on attribute names that holds
for every attribute of every element, and is preserved by all the
rewriter's mutations whose written keys satisfy it. -/

/-- All attribute keys of a dict satisfy `p`. -/
def attrKeysSat (p : String → Bool) (m : AttrMap) : Bool :=
  m.all (fun kv => p kv.1)

/-- All attribute keys of all elements of the store satisfy `p`. -/
def Store.keysSat (st : Store) (p : String → Bool) : Bool :=
  st.elems.all (fun q => attrKeysSat p q.2.attribs)

theorem attrKeysSat_attrSet (p : String → Bool) (m : AttrMap) (k v : String)
    (hm : attrKeysSat p m = true) (hk : p k = true) :
    attrKeysSat p (attrSet m k v) = true := by
  induction m with
  | nil => simp [attrSet, attrKeysSat, hk]
  | cons x xs ih =>
    simp only [attrKeysSat, List.all_cons, Bool.and_eq_true] at hm
    by_cases hx : x.1 == k
    · simp [attrSet, hx, attrKeysSat, hk, hm.2]
    · have hxf : (x.1 == k) = false := by simpa using hx
      simp only [attrSet, hxf, Bool.false_eq_true, if_false]
      simp only [attrKeysSat, List.all_cons, Bool.and_eq_true]
      exact ⟨hm.1, ih hm.2⟩

theorem attrKeysSat_attrDel (p : String → Bool) (m : AttrMap) (k : String)
    (hm : attrKeysSat p m = true) : attrKeysSat p (attrDel m k) = true := by
  rw [attrKeysSat, List.all_eq_true]
  intro kv hkv
  have := List.mem_of_mem_filter hkv
  exact List.all_eq_true.mp hm kv this

theorem getE_sat (st : Store) (i : Nat) (e : Elem) (p : String → Bool)
    (hsat : st.keysSat p = true) (h : st.getE i = some e) :
    attrKeysSat p e.attribs = true := by
  unfold Store.getE at h
  cases hf : st.elems.find? (fun q => q.1 == i) with
  | none => rw [hf] at h; simp at h
  | some q =>
    rw [hf] at h
    have h2 : q.2 = e := by simpa using h
    have hq := List.mem_of_find?_eq_some hf
    have := List.all_eq_true.mp hsat q hq
    rw [← h2]
    exact this

theorem all_elemsUpd (l : List (Nat × Elem)) (i : Nat) (e : Elem) (p : String → Bool)
    (hl : l.all (fun q => attrKeysSat p q.2.attribs) = true)
    (he : attrKeysSat p e.attribs = true) :
    (elemsUpd l i e).all (fun q => attrKeysSat p q.2.attribs) = true := by
  induction l with
  | nil => rfl
  | cons x xs ih =>
    simp only [List.all_cons, Bool.and_eq_true] at hl
    by_cases hx : x.1 == i
    · simp [elemsUpd, hx, List.all_cons, he, hl.2]
    · have hxf : (x.1 == i) = false := by simpa using hx
      simp only [elemsUpd, hxf, Bool.false_eq_true, if_false, List.all_cons, Bool.and_eq_true]
      exact ⟨hl.1, ih hl.2⟩

theorem keysSat_setE (st : Store) (i : Nat) (e : Elem) (p : String → Bool)
    (hsat : st.keysSat p = true) (he : attrKeysSat p e.attribs = true) :
    (st.setE i e).keysSat p = true :=
  all_elemsUpd st.elems i e p hsat he

theorem keysSat_alloc (st : Store) (e : Elem) (p : String → Bool)
    (hsat : st.keysSat p = true) (he : attrKeysSat p e.attribs = true) :
    (st.alloc e).2.keysSat p = true := by
  show (st.elems ++ [(st.fresh, e)]).all (fun q => attrKeysSat p q.2.attribs) = true
  rw [List.all_append]
  simp only [List.all_cons, List.all_nil, Bool.and_true, Bool.and_eq_true]
  exact ⟨hsat, he⟩

theorem keysSat_setParent (st : Store) (c q : Nat) (p : String → Bool) :
    (st.setParent c q).keysSat p = st.keysSat p := rfl

theorem keysSat_setAttrOn (st : Store) (i : Nat) (k v : String) (p : String → Bool)
    (hsat : st.keysSat p = true) (hk : p k = true) :
    (st.setAttrOn i k v).keysSat p = true := by
  unfold Store.setAttrOn
  cases hg : st.getE i with
  | none => exact hsat
  | some e =>
    exact keysSat_setE _ _ _ _ hsat
      (attrKeysSat_attrSet _ _ _ _ (getE_sat st i e p hsat hg) hk)

theorem keysSat_set_base_label (st : Store) (cid : Nat) (t : String) (p : String → Bool)
    (hsat : st.keysSat p = true) (hlabel : p "label" = true) :
    (set_base_label_and_clear_inner st cid t).keysSat p = true := by
  have h1 : (st.setAttrOn cid "label" t).keysSat p = true :=
    keysSat_setAttrOn _ _ _ _ _ hsat hlabel
  simp only [set_base_label_and_clear_inner]
  split
  · exact h1
  · split
    · split
      · split
        · rename_i ie hie
          exact keysSat_setE _ _ _ _ h1
            (attrKeysSat_attrDel _ _ _
              (attrKeysSat_attrDel _ _ _ (getE_sat _ _ _ _ h1 hie)))
        · exact h1
      · exact h1
    · exact h1

theorem hasChar_append_left (a b : String) (c : Char) (h : hasChar a c = true) :
    hasChar (a ++ b) c = true := by
  unfold hasChar at *
  rw [String.data_append, List.any_append, h]
  rfl

theorem keysSat_writeKeyPair (keys : List String) (st : Store) (cid : Nat) (v : String)
    (ow : Bool) (w : Nat) (p : String → Bool)
    (hk : ∀ k ∈ keys, hasChar k '-' = false → p k = true)
    (hsat : st.keysSat p = true) :
    (writeKeyPair st cid keys v ow w).1.keysSat p = true := by
  induction keys generalizing st w with
  | nil => exact hsat
  | cons key rest ih =>
    rw [writeKeyPair_cons]
    have hrest : ∀ k ∈ rest, hasChar k '-' = false → p k = true :=
      fun k hm => hk k (List.mem_cons_of_mem _ hm)
    by_cases hc : ow = true ∨ ¬ st.attrHasKey cid key = true
    · rw [if_pos hc]
      by_cases hc2 : ¬ hasChar key '-' = true
      · rw [if_pos hc2]
        exact ih _ _ hrest
          (keysSat_setAttrOn _ _ _ _ _ hsat
            (hk key (List.mem_cons_self key rest) (by simpa using hc2)))
      · rw [if_neg hc2]
        exact ih _ _ hrest hsat
    · rw [if_neg hc]
      exact ih _ _ hrest hsat

theorem keysSat_wrapAttrs (cell : Elem) (p : String → Bool)
    (hid : p "id" = true) (hlabel : p "label" = true) :
    attrKeysSat p (wrapAttrs cell) = true := by
  unfold wrapAttrs
  have hw0 : ∀ m : AttrMap, attrKeysSat p m = true →
      attrKeysSat p (if cellVisibleText cell ≠ "" then attrSet m "label" (cellVisibleText cell) else m) = true := by
    intro m hm
    split
    · exact attrKeysSat_attrSet _ _ _ _ hm hlabel
    · exact hm
  apply hw0
  split
  · split
    · exact attrKeysSat_attrSet _ _ _ _ rfl hid
    · rfl
  · rfl

theorem keysSat_ensure (st : Store) (cellId : Nat) (p : String → Bool)
    (hid : p "id" = true) (hlabel : p "label" = true)
    (hsat : st.keysSat p = true) :
    (ensure_userobject_wrapper st cellId).2.keysSat p = true := by
  unfold ensure_userobject_wrapper
  split
  · exact hsat
  · rename_i cell hcell
    split
    · exact hsat
    · split
      · exact hsat
      · rename_i pid hpar
        split
        · exact hsat
        · rename_i pe hpe
          split
          · exact hsat
          · show (((((st.alloc (innerClone cell)).2.alloc (wrapElem cell st.fresh)).2.setE pid
                { pe with children := listInsertAt (st.fresh + 1) (pyIndex cellId pe.children) (pyRemove cellId pe.children) }).setParent
                st.fresh (st.fresh + 1)).setParent (st.fresh + 1) pid).keysSat p = true
            rw [keysSat_setParent, keysSat_setParent]
            have hinner : attrKeysSat p (innerClone cell).attribs = true := by
              unfold innerClone
              exact attrKeysSat_attrDel _ _ _
                (attrKeysSat_attrDel _ _ _
                  (attrKeysSat_attrDel _ _ _ (getE_sat _ _ _ _ hsat hcell)))
            have h2 : ((st.alloc (innerClone cell)).2.alloc (wrapElem cell st.fresh)).2.keysSat
                p = true :=
              keysSat_alloc _ _ _ (keysSat_alloc _ _ _ hsat hinner)
                (keysSat_wrapAttrs cell p hid hlabel)
            have hpeSat := getE_sat st pid pe p hsat hpe
            exact keysSat_setE _ _ _ _ h2 hpeSat

theorem keysSat_resolve (st : Store) (elemId : Nat) (p : String → Bool)
    (hid : p "id" = true) (hlabel : p "label" = true)
    (hsat : st.keysSat p = true) :
    (resolve_container st elemId).2.keysSat p = true := by
  unfold resolve_container
  split
  · exact hsat
  · split
    · exact keysSat_ensure _ _ _ hid hlabel hsat
    · split
      · split
        · split
          · split
            · exact hsat
            · exact hsat
          · exact hsat
        · exact hsat
      · exact hsat

theorem keysSat_langLoop (ctx : RewriteCtx) (container : Nat) (original_text : String)
    (primary_lang : String) (ow : Bool) (target_langs : List String)
    (acc : Nat × Store × Cache) (p : String → Bool)
    (hlang : ∀ l, ¬ l = "en" → ¬ l = primary_lang →
      hasChar ("label_" ++ l) '-' = false → p ("label_" ++ l) = true)
    (hacc : acc.2.1.keysSat p = true) :
    ((target_langs.foldl (langStep ctx container original_text primary_lang ow)
      acc).2.1).keysSat p = true := by
  induction target_langs generalizing acc with
  | nil => exact hacc
  | cons lang rest ih =>
    rw [List.foldl_cons]
    apply ih
    simp only [langStep]
    split
    · exact hacc
    · split
      · exact hacc
      · rename_i hne hnp
        refine keysSat_writeKeyPair _ _ _ _ _ _ _ ?_ hacc
        intro k hm hkc
        simp only [List.mem_cons, List.not_mem_nil, or_false] at hm
        rcases hm with h1 | h2
        · rw [h1] at hkc ⊢
          exact hlang lang hne hnp hkc
        · rw [h2] at hkc
          have hh : hasChar ("label-" ++ lang) '-' = true :=
            hasChar_append_left _ _ _ (by decide)
          rw [hh] at hkc
          cases hkc

theorem keysSat_baseWrite (st : Store) (container : Nat) (t : String) (ow : Bool)
    (p : String → Bool) (hlabel : p "label" = true) (hsat : st.keysSat p = true) :
    (baseWrite st container t ow).1.keysSat p = true := by
  unfold baseWrite
  split
  · exact keysSat_set_base_label _ _ _ _ hsat hlabel
  · exact hsat

theorem keysSat_enKeysWrite (ctx : RewriteCtx) (b : Store × Nat) (container : Nat)
    (t : String) (ow : Bool) (p : String → Bool)
    (hen : ctx.write_en_keys = true → p "label_en" = true)
    (hb : b.1.keysSat p = true) :
    (enKeysWrite ctx b container t ow).1.keysSat p = true := by
  unfold enKeysWrite
  split
  · rename_i hwk
    refine keysSat_writeKeyPair _ _ _ _ _ _ _ ?_ hb
    intro k hm hkc
    simp only [List.mem_cons, List.not_mem_nil, or_false] at hm
    rcases hm with h1 | h2
    · rw [h1]
      exact hen hwk
    · rw [h2] at hkc
      cases hkc
  · exact hb

theorem keysSat_primaryKeyWrite (b : Store × Nat) (container : Nat)
    (orig primary_lang : String) (ow : Bool) (p : String → Bool)
    (hprim : ¬ primary_lang = "en" → hasChar ("label_" ++ primary_lang) '-' = false →
      p ("label_" ++ primary_lang) = true)
    (hb : b.1.keysSat p = true) :
    (primaryKeyWrite b container orig primary_lang ow).1.keysSat p = true := by
  unfold primaryKeyWrite
  split
  · rename_i hne
    refine keysSat_writeKeyPair _ _ _ _ _ _ _ ?_ hb
    intro k hm hkc
    simp only [List.mem_cons, List.not_mem_nil, or_false] at hm
    rcases hm with h1 | h2
    · rw [h1] at hkc ⊢
      exact hprim hne hkc
    · rw [h2] at hkc
      have hh : hasChar ("label-" ++ primary_lang) '-' = true :=
        hasChar_append_left _ _ _ (by decide)
      rw [hh] at hkc
      cases hkc
  · exact hb

theorem keysSat_apply_writes (ctx : RewriteCtx) (st : Store) (cache : Cache)
    (container : Nat) (original_text : String) (target_langs : List String)
    (primary_lang : String) (ow : Bool) (p : String → Bool)
    (hlabel : p "label" = true)
    (hen : ctx.write_en_keys = true → p "label_en" = true)
    (hprim : ¬ primary_lang = "en" → hasChar ("label_" ++ primary_lang) '-' = false →
      p ("label_" ++ primary_lang) = true)
    (hlang : ∀ l, ¬ l = "en" → ¬ l = primary_lang →
      hasChar ("label_" ++ l) '-' = false → p ("label_" ++ l) = true)
    (hsat : st.keysSat p = true) :
    ((apply_writes ctx st cache container original_text target_langs primary_lang
      ow).2.1).keysSat p = true := by
  unfold apply_writes
  apply keysSat_langLoop _ _ _ _ _ _ _ _ hlang
  split
  · exact keysSat_primaryKeyWrite _ _ _ _ _ _ hprim
      (keysSat_enKeysWrite _ _ _ _ _ _ hen
        (keysSat_baseWrite _ _ _ _ _ hlabel hsat))
  · exact keysSat_baseWrite _ _ _ _ _ hlabel hsat

/-- Every attribute write the Label Rewriter performs preserves any key
    predicate that holds for `id`, `label`, the `label_en` key (when
    `WRITE_EN_KEYS` is on), and the hyphen-free underscore keys it can
    emit. -/
theorem keysSat_apply (ctx : RewriteCtx) (st : Store) (cache : Cache) (elemId : Nat)
    (langs : List String) (primary_lang : String) (ei ow : Bool) (p : String → Bool)
    (hid : p "id" = true) (hlabel : p "label" = true)
    (hen : ctx.write_en_keys = true → p "label_en" = true)
    (hprim : ¬ primary_lang = "en" → hasChar ("label_" ++ primary_lang) '-' = false →
      p ("label_" ++ primary_lang) = true)
    (hlang : ∀ l, ¬ l = "en" → ¬ l = primary_lang →
      hasChar ("label_" ++ l) '-' = false → p ("label_" ++ l) = true)
    (hsat : st.keysSat p = true) :
    ((translate_and_apply_for_element ctx st cache elemId langs primary_lang ei
      ow).2.1).keysSat p = true := by
  simp only [translate_and_apply_for_element]
  split
  · exact hsat
  · split
    · exact hsat
    · exact keysSat_apply_writes _ _ _ _ _ _ _ _ _ hlabel hen hprim hlang
        (keysSat_resolve _ _ _ hid hlabel hsat)

/-- No key of the form `label-<code>` (indeed, no key containing a hyphen
    at all). -/
def noHyphenKey (k : String) : Bool := !(hasChar k '-')

/-- No `label_en` and no `value_en` key. -/
def noEnKey (k : String) : Bool := !(k == "label_en" || k == "value_en")

/-- Claim C10: the Label Rewriter never writes an attribute whose name
    follows the hyphenated convention `label-<code>`: although it iterates
    over both key spellings for every language, the `if not("-" in key)`
    guard suppresses every hyphenated write, so a tree whose attribute
    names are hyphen-free stays hyphen-free (only underscore-spelled
    language keys, `label` and `id`, are ever created). -/
theorem no_hyphenated_key_ever_written (ctx : RewriteCtx) (st : Store) (cache : Cache)
    (elemId : Nat) (langs : List String) (primary_lang : String) (ei ow : Bool)
    (hsat : st.keysSat noHyphenKey = true) :
    ((translate_and_apply_for_element ctx st cache elemId langs primary_lang ei
      ow).2.1).keysSat noHyphenKey = true :=
  keysSat_apply ctx st cache elemId langs primary_lang ei ow noHyphenKey
    (by decide) (by decide) (fun _ => by decide)
    (fun _ h => by simp [noHyphenKey, h])
    (fun l _ _ h => by simp [noHyphenKey, h]) hsat

/-- Witness for C10: a full rewrite of the wrapping sample page, languages
    `["en", "fr"]`, primary `fr`, defaults on. -/
theorem no_hyphenated_key_ever_written_witness :
    sampleWrapStore.keysSat noHyphenKey = true ∧
    ((translate_and_apply_for_element sampleCtxDefault sampleWrapStore [] 1
      ["en", "fr"] "fr" true true).2.1).keysSat noHyphenKey = true :=
  ⟨by decide,
    no_hyphenated_key_ever_written sampleCtxDefault sampleWrapStore [] 1
      ["en", "fr"] "fr" true true (by decide)⟩

/-- Rewriter context with `WRITE_EN_KEYS` disabled. -/
def sampleCtxNoEnKeys : RewriteCtx :=
  { attempt := sampleAttempt, unesc := id, cfg := sampleCfg, write_en_keys := false }

/-- Claim C1 amended: when (and only when) the `WRITE_EN_KEYS` module
    global is disabled, processing a node with `en` among the requested
    languages creates no `label_en` and no `value_en` attribute on any
    node — the English text lives only in the container's base `label`
    (no hyphenated `label-en` is ever created either, by C10).  With
    `WRITE_EN_KEYS` at its default `True`, the counterexample shows a
    `label_en` key is created. -/
theorem no_en_key_when_write_en_keys_disabled (ctx : RewriteCtx) (st : Store)
    (cache : Cache) (elemId : Nat) (langs : List String) (primary_lang : String)
    (ei ow : Bool)
    (hwk : ctx.write_en_keys = false)
    (hreq : "en" ∈ langs.map pyLower)
    (hsat : st.keysSat noEnKey = true) :
    ((translate_and_apply_for_element ctx st cache elemId langs primary_lang ei
      ow).2.1).keysSat noEnKey = true := by
  have hlit : ("label_en" : String) = "label_" ++ "en" := by decide
  have hkey : ∀ x, ¬ x = "en" → noEnKey ("label_" ++ x) = true := by
    intro x hx
    have h1 : ("label_" ++ x == "label_en") = false := by
      simp only [beq_eq_false_iff_ne, ne_eq]
      intro he
      exact hx (label_key_inj (he.trans hlit))
    have h2 : ("label_" ++ x == "value_en") = false := by
      simp only [beq_eq_false_iff_ne, ne_eq]
      exact label_key_ne_value_en x
    simp [noEnKey, h1, h2]
  exact keysSat_apply ctx st cache elemId langs primary_lang ei ow noEnKey
    (by decide) (by decide)
    (fun h => absurd h (by simp [hwk]))
    (fun hne _ => hkey primary_lang hne)
    (fun l hne _ _ => hkey l hne) hsat

/-- Witness for C1's amended theorem: the `"Bonjour"` container with
    `WRITE_EN_KEYS` disabled, languages `["en", "fr"]`, primary `fr`. -/
theorem no_en_key_when_write_en_keys_disabled_witness :
    sampleCtxNoEnKeys.write_en_keys = false ∧
    "en" ∈ (["en", "fr"].map pyLower) ∧
    sampleUserObjectStore.keysSat noEnKey = true ∧
    ((translate_and_apply_for_element sampleCtxNoEnKeys sampleUserObjectStore [] 0
      ["en", "fr"] "fr" true true).2.1).keysSat noEnKey = true :=
  ⟨by decide, by decide, by decide,
    no_en_key_when_write_en_keys_disabled sampleCtxNoEnKeys sampleUserObjectStore [] 0
      ["en", "fr"] "fr" true true (by decide) (by decide) (by decide)⟩

end Drawio
